import Mathlib

/-!
Verification of the DirectoryCollection component of Zipios
(src/src/directorycollection.cpp) against its design specification.

The filesystem is modelled as an inductive tree whose directory listings
carry their children in a fixed order (the directory-listing order seen by
the iterator).  Paths are lists of segments: the spec treats the string
representation of paths as out of scope, so concatenation of a root path
with relative segments is list append.  Machinery that the source file uses
but that is not part of it (FileCollection::mustBeValid, the matching in
FileCollection::getEntry, the DirectoryEntry constructor) is modelled from
the specification, with a note on each definition.
-/

namespace Zipios

/-- A filesystem path, as the ordered list of its segments. -/
abbrev Path := List String

mutual

/-- A filesystem node: a plain file, a directory whose listing cannot be
read (exists and stats as a directory, but iterating it raises — the
"permission denied on a subdirectory" case of spec section 7), or a readable
directory with an ordered listing of named children. -/
inductive FSTree : Type where
  | file : FSTree
  | deniedDir : FSTree
  | dir : FSForest → FSTree

/-- An ordered directory listing: the children, in the order the directory
iterator produces them. -/
inductive FSForest : Type where
  | nil : FSForest
  | cons : String → FSTree → FSForest → FSForest

end

/-- Whether a node stats as a directory (an unreadable directory still does). -/
def FSTree.isDir : FSTree → Bool
  | .dir _ => true
  | .deniedDir => true
  | .file => false

/-- Find the child with the given name in a directory listing. -/
def FSForest.lookup : FSForest → String → Option FSTree
  | .nil, _ => none
  | .cons n c rest, target => if n = target then some c else rest.lookup target

/-- Resolve a path from a node, walking one segment at a time. -/
def FSTree.resolve : FSTree → Path → Option FSTree
  | t, [] => some t
  | FSTree.dir f, n :: rest =>
    match f.lookup n with
    | some c => c.resolve rest
    | none => none
  | _, _ :: _ => none

/-- Whether the path denotes an existing directory (FilePath::isDirectory). -/
def isDirAt (fs : FSTree) (p : Path) : Bool :=
  match fs.resolve p with
  | some t => t.isDir
  | none => false

/-- Whether opening the path for reading would succeed (it denotes an
existing plain file). -/
def canOpenForReading (fs : FSTree) (p : Path) : Bool :=
  match fs.resolve p with
  | some FSTree.file => true
  | _ => false

/-- Entry Metadata: the name recorded for the entry and whether the node is
a directory (spec section 3). -/
structure FileEntry where
  name : Path
  isDirectory : Bool
deriving DecidableEq, Repr

/-- Modelled from the spec: the DirectoryEntry constructor is not under
src/.  It stores the path it is handed as the entry's name and records
whether the filesystem node there is a directory.  The name must be the
full constructor path: src/src/directorycollection.cpp line 201 opens
ent->getName() directly as a filesystem path, and the spec (section 4.4)
says open uses "the underlying filesystem path".  (The second C++ argument
is the comment, irrelevant here.) -/
def DirectoryEntry (fs : FSTree) (path : Path) : FileEntry :=
  { name := path, isDirectory := isDirAt fs path }

/-- The error taxonomy of spec section 7: InvalidState for queries on an
invalid collection, and the filesystem-level failure that a scan can raise. -/
inductive ZipiosError : Type where
  | invalidState : ZipiosError
  | ioError : ZipiosError
deriving DecidableEq, Repr

/-- The two lookup modes of FileCollection::getEntry. -/
inductive MatchPath : Type where
  | MATCH : MatchPath
  | IGNORE : MatchPath
deriving DecidableEq, Repr

/-- The final path component of a name, if any. -/
def basename (p : Path) : Option String := p.getLast?

/-- Modelled from the spec: the name comparison used by
FileCollection::getEntry (not under src/).  MATCH compares the entry's
recorded name with the target exactly; IGNORE compares only the final path
component of each side (spec section 4.3). -/
def nameMatches (matchpath : MatchPath) (entryName target : Path) : Bool :=
  match matchpath with
  | MatchPath.MATCH => entryName = target
  | MatchPath.IGNORE => basename entryName = basename target

/-- Modelled from the spec: FileCollection::getEntry (not under src/) scans
the cache and returns the first entry matching the target under the given
mode, or none — "First match in cache order wins", a miss "is a normal
outcome, not an error" (spec section 4.3). -/
def FileCollection.getEntry (entries : List FileEntry) (target : Path)
    (matchpath : MatchPath) : Option FileEntry :=
  entries.find? fun e => nameMatches matchpath e.name target

/-- State of a DirectoryCollection: the members of FileCollection
(m_valid, m_filename, m_entries) together with those the source file adds
(m_entries_loaded, m_recursive, m_filepath). -/
structure DirectoryCollection where
  m_valid : Bool
  m_entries_loaded : Bool
  m_recursive : Bool
  m_filepath : Path
  m_filename : Path
  m_entries : List FileEntry
deriving DecidableEq, Repr

/-- Embeds the default constructor (src lines 54–59): an empty, invalid
collection; m_recursive auto-initializes to true. -/
def DirectoryCollection.mkDefault : DirectoryCollection :=
  { m_valid := false
    m_entries_loaded := false
    m_recursive := true
    m_filepath := []
    m_filename := []
    m_entries := [] }

/-- Embeds the path-taking constructor (src lines 84–91): records the path
and recursion flag, sets m_filename to the path, and computes validity by
testing whether the path is a directory.  No traversal happens here. -/
def DirectoryCollection.mkPath (fs : FSTree) (path : Path) (recursive : Bool) :
    DirectoryCollection :=
  { m_valid := isDirAt fs path
    m_entries_loaded := false
    m_recursive := recursive
    m_filepath := path
    m_filename := path
    m_entries := [] }

/-- Embeds DirectoryCollection::close (src lines 108–118): unconditionally
invalidates, resets the loaded flag, clears the cache, and resets
m_filename to the sentinel "-" and m_filepath to the empty path. -/
def DirectoryCollection.close (c : DirectoryCollection) : DirectoryCollection :=
  { c with
    m_valid := false
    m_entries_loaded := false
    m_entries := []
    m_filename := ["-"]
    m_filepath := [] }

/-- Embeds DirectoryCollection::clone (src lines 230–233): a copy of the
current state via the memberwise copy constructor (the entries vector is
copied element-wise); in this value semantics, the same state value. -/
def DirectoryCollection.clone (c : DirectoryCollection) : DirectoryCollection := c

/-- Modelled from the spec: FileCollection::mustBeValid (not under src/)
raises InvalidState exactly when valid() is false (spec section 7). -/
def DirectoryCollection.mustBeValid (c : DirectoryCollection) : Option ZipiosError :=
  if c.m_valid then none else some ZipiosError.invalidState

mutual

/-- Embeds the body of DirectoryCollection::load (src lines 271–288) on the
listing of the directory being iterated, with base the path the iterator
was opened on (m_filepath + subdir).  Each child that is not "." or ".."
yields one entry named base ++ child; if m_recursive is set and the entry
is a directory, the recursion runs before the remaining siblings.  The
boolean is false when a directory iterator raised, in which case the
entries pushed before the failure are kept (push_back effects persist when
the C++ exception propagates). -/
def loadDir (base : Path) (recursive : Bool) : FSTree → List FileEntry × Bool
  | FSTree.dir f => loadForest base recursive f
  | _ => ([], false)

/-- The sibling loop of DirectoryCollection::load over a directory listing. -/
def loadForest (base : Path) (recursive : Bool) : FSForest → List FileEntry × Bool
  | FSForest.nil => ([], true)
  | FSForest.cons n c rest =>
    if n = "." ∨ n = ".." then loadForest base recursive rest
    else
      let ent : FileEntry := { name := base ++ [n], isDirectory := c.isDir }
      if recursive && c.isDir then
        let d := loadDir (base ++ [n]) recursive c
        if d.2 then
          let rs := loadForest base recursive rest
          (ent :: (d.1 ++ rs.1), rs.2)
        else (ent :: d.1, false)
      else
        let rs := loadForest base recursive rest
        (ent :: rs.1, rs.2)

end

/-- Opening the directory iterator on a path and running load there: if the
path does not resolve to a readable directory the iteration raises at once. -/
def loadAt (fs : FSTree) (base : Path) (recursive : Bool) : List FileEntry × Bool :=
  match fs.resolve base with
  | some t => loadDir base recursive t
  | none => ([], false)

/-- Embeds DirectoryCollection::loadEntries (src lines 243–259): checks
validity first, and if the entries are not loaded yet, sets
m_entries_loaded to true, pushes the root entry DirectoryEntry(m_filepath),
then runs load from the root.  On a scan failure the state mutations
already performed persist and the error propagates. -/
def DirectoryCollection.loadEntries (fs : FSTree) (c : DirectoryCollection) :
    DirectoryCollection × Option ZipiosError :=
  match c.mustBeValid with
  | some e => (c, some e)
  | none =>
    if c.m_entries_loaded then (c, none)
    else
      let c1 : DirectoryCollection :=
        { c with
          m_entries_loaded := true
          m_entries := c.m_entries ++ [DirectoryEntry fs c.m_filepath] }
      let r := loadAt fs c.m_filepath c.m_recursive
      ({ c1 with m_entries := c1.m_entries ++ r.1 },
       if r.2 then none else some ZipiosError.ioError)

/-- Embeds DirectoryCollection::entries (src lines 136–141): loadEntries,
then a copy of the entry vector (FileCollection::entries, modelled from the
spec as returning a copy of the cache). -/
def DirectoryCollection.entries (fs : FSTree) (c : DirectoryCollection) :
    DirectoryCollection × Except ZipiosError (List FileEntry) :=
  let p := c.loadEntries fs
  match p.2 with
  | none => (p.1, Except.ok p.1.m_entries)
  | some e => (p.1, Except.error e)

/-- Embeds DirectoryCollection::getEntry (src lines 164–169): loadEntries,
then the first-match lookup of FileCollection::getEntry. -/
def DirectoryCollection.getEntry (fs : FSTree) (c : DirectoryCollection)
    (name : Path) (matchpath : MatchPath) :
    DirectoryCollection × Except ZipiosError (Option FileEntry) :=
  let p := c.loadEntries fs
  match p.2 with
  | none => (p.1, Except.ok (FileCollection.getEntry p.1.m_entries name matchpath))
  | some e => (p.1, Except.error e)

/-- Embeds DirectoryCollection::size (src lines 215–220): loadEntries, then
the length of the entry vector. -/
def DirectoryCollection.size (fs : FSTree) (c : DirectoryCollection) :
    DirectoryCollection × Except ZipiosError Nat :=
  let p := c.loadEntries fs
  match p.2 with
  | none => (p.1, Except.ok p.1.m_entries.length)
  | some e => (p.1, Except.error e)

/-- A byte-input-stream handle: the filesystem path it was opened on and
whether it was opened in binary mode.  The handle records only what the
ifstream constructor was given; whether the open succeeded is a fact about
the filesystem, visible through canOpenForReading. -/
structure InputStream where
  path : Path
  binaryMode : Bool
deriving DecidableEq, Repr

/-- Embeds DirectoryCollection::getInputStream (src lines 193–203): getEntry
first; a missing entry or a directory entry gives the null pointer; any
other entry gives a stream opened on ent->getName() in binary read mode,
unconditionally. -/
def DirectoryCollection.getInputStream (fs : FSTree) (c : DirectoryCollection)
    (entry_name : Path) (matchpath : MatchPath) :
    DirectoryCollection × Except ZipiosError (Option InputStream) :=
  let q := c.getEntry fs entry_name matchpath
  match q.2 with
  | Except.error e => (q.1, Except.error e)
  | Except.ok none => (q.1, Except.ok none)
  | Except.ok (some ent) =>
    if ent.isDirectory then (q.1, Except.ok none)
    else (q.1, Except.ok (some { path := ent.name, binaryMode := true }))

mutual

/-- Whether no unreadable directory occurs anywhere in the node, so that a
scan of it cannot raise. -/
def noDenied : FSTree → Bool
  | FSTree.file => true
  | FSTree.deniedDir => false
  | FSTree.dir f => noDeniedForest f

/-- Whether no unreadable directory occurs anywhere in the listing. -/
def noDeniedForest : FSForest → Bool
  | FSForest.nil => true
  | FSForest.cons _ c rest => noDenied c && noDeniedForest rest

end

mutual

/-- Follows the spec's words (section 4.2, steps 2–3): the depth-first
pre-order listing of a directory node — for each child in listing order
that is not a self/parent pseudo-entry, one Entry Metadata record, followed
immediately (when the recursion flag is set and the child is a directory)
by the listing of that child, before the remaining siblings. -/
def scanSpecDir (base : Path) (recursive : Bool) : FSTree → List FileEntry
  | FSTree.dir f => scanSpecForest base recursive f
  | _ => []

/-- The per-listing part of the spec's traversal description. -/
def scanSpecForest (base : Path) (recursive : Bool) : FSForest → List FileEntry
  | FSForest.nil => []
  | FSForest.cons n c rest =>
    if n = "." ∨ n = ".." then scanSpecForest base recursive rest
    else
      ({ name := base ++ [n], isDirectory := c.isDir } : FileEntry) ::
        ((if recursive && c.isDir then scanSpecDir (base ++ [n]) recursive c else []) ++
          scanSpecForest base recursive rest)

end

/-- Follows the spec's words (section 4.2, step 4): with recursion
disabled, only the immediate children are materialized — one entry per
non-pseudo child, in listing order, none descended into. -/
def immediateChildren (base : Path) : FSForest → List FileEntry
  | FSForest.nil => []
  | FSForest.cons n c rest =>
    if n = "." ∨ n = ".." then immediateChildren base rest
    else ({ name := base ++ [n], isDirectory := c.isDir } : FileEntry) ::
      immediateChildren base rest

/-- A query on an invalid collection fails with InvalidState and leaves the
state untouched, whatever the filesystem looks like. -/
theorem loadEntries_invalid (fs : FSTree) (c : DirectoryCollection)
    (h : c.m_valid = false) :
    c.loadEntries fs = (c, some ZipiosError.invalidState) := by
  simp [DirectoryCollection.loadEntries, DirectoryCollection.mustBeValid, h]

/-- Once loaded, loadEntries is the identity with no error. -/
theorem loadEntries_loaded (fs : FSTree) (c : DirectoryCollection)
    (h1 : c.m_valid = true) (h2 : c.m_entries_loaded = true) :
    c.loadEntries fs = (c, none) := by
  simp [DirectoryCollection.loadEntries, DirectoryCollection.mustBeValid, h1, h2]

/-- The first load on a valid collection: the loaded flag is set, the root
entry is pushed, and the scan result is appended. -/
theorem loadEntries_unloaded (fs : FSTree) (c : DirectoryCollection)
    (h1 : c.m_valid = true) (h2 : c.m_entries_loaded = false) :
    c.loadEntries fs =
      ({ c with
          m_entries_loaded := true
          m_entries := (c.m_entries ++ [DirectoryEntry fs c.m_filepath]) ++
            (loadAt fs c.m_filepath c.m_recursive).1 },
       if (loadAt fs c.m_filepath c.m_recursive).2 then none
       else some ZipiosError.ioError) := by
  simp [DirectoryCollection.loadEntries, DirectoryCollection.mustBeValid, h1, h2]

/-- loadEntries never changes validity, the recursion flag or the root
path, and on a valid collection it always leaves the loaded flag set. -/
theorem loadEntries_fields (fs : FSTree) (c : DirectoryCollection) :
    ((c.loadEntries fs).1).m_valid = c.m_valid ∧
    ((c.loadEntries fs).1).m_recursive = c.m_recursive ∧
    ((c.loadEntries fs).1).m_filepath = c.m_filepath ∧
    (c.m_valid = true → ((c.loadEntries fs).1).m_entries_loaded = true) := by
  cases h1 : c.m_valid with
  | false => simp [loadEntries_invalid fs c h1, h1]
  | true =>
    cases h2 : c.m_entries_loaded with
    | true => simp [loadEntries_loaded fs c h1 h2, h1, h2]
    | false => simp [loadEntries_unloaded fs c h1 h2, h1]

/-- After any first load on a valid collection, a second loadEntries — over
any filesystem at all — is the identity with no error: the scan runs at
most once per instance. -/
theorem loadEntries_again (fs fs2 : FSTree) (c : DirectoryCollection)
    (h : c.m_valid = true) :
    ((c.loadEntries fs).1).loadEntries fs2 = ((c.loadEntries fs).1, none) := by
  have hf := loadEntries_fields fs c
  exact loadEntries_loaded fs2 _ (by rw [hf.1]; exact h) (hf.2.2.2 h)

/-- Splitting a successful find? at its witness: the list decomposes around
the first element satisfying the predicate. -/
theorem find_first_decomp {α : Type} (p : α → Bool) (l : List α) (a : α)
    (h : l.find? p = some a) :
    ∃ l1 l2, l = l1 ++ a :: l2 ∧ p a = true ∧ ∀ x ∈ l1, p x = false := by
  induction l with
  | nil => simp [List.find?] at h
  | cons x xs ih =>
    cases hx : p x with
    | true =>
      rw [List.find?_cons_of_pos _ hx] at h
      obtain rfl : x = a := by injection h
      exact ⟨[], xs, rfl, hx, by simp⟩
    | false =>
      rw [List.find?_cons_of_neg _ (by simp [hx])] at h
      obtain ⟨l1, l2, hsplit, hp, hall⟩ := ih h
      refine ⟨x :: l1, l2, by simp [hsplit], hp, ?_⟩
      intro y hy
      rcases List.mem_cons.mp hy with rfl | hy2
      · exact hx
      · exact hall y hy2

mutual

/-- On a filesystem region with no unreadable directory, the code's scan of
a directory node produces exactly the spec's depth-first pre-order listing
and succeeds. -/
def loadDir_eq_scanSpec : ∀ (t : FSTree), noDenied t = true → t.isDir = true →
    ∀ (base : Path) (recursive : Bool),
      loadDir base recursive t = (scanSpecDir base recursive t, true)
  | FSTree.file, _, hd, _, _ => by simp [FSTree.isDir] at hd
  | FSTree.deniedDir, hn, _, _, _ => by simp [noDenied] at hn
  | FSTree.dir f, hn, _, base, recursive => by
    have hf : noDeniedForest f = true := by simpa [noDenied] using hn
    simpa [loadDir, scanSpecDir] using loadForest_eq_scanSpec f hf base recursive

/-- The per-listing half of the previous lemma. -/
def loadForest_eq_scanSpec : ∀ (f : FSForest), noDeniedForest f = true →
    ∀ (base : Path) (recursive : Bool),
      loadForest base recursive f = (scanSpecForest base recursive f, true)
  | FSForest.nil, _, _, _ => rfl
  | FSForest.cons n c rest, hn, base, recursive => by
    have hn1 : noDenied c = true := by
      have := hn; simp [noDeniedForest, Bool.and_eq_true] at this; exact this.1
    have hn2 : noDeniedForest rest = true := by
      have := hn; simp [noDeniedForest, Bool.and_eq_true] at this; exact this.2
    have ihrest := loadForest_eq_scanSpec rest hn2 base recursive
    by_cases hp : n = "." ∨ n = ".."
    · simp [loadForest, scanSpecForest, hp, ihrest]
    · cases hrc : recursive && c.isDir with
      | true =>
        have hcd : c.isDir = true := by
          have := hrc; simp at this; exact this.2
        have ihc := loadDir_eq_scanSpec c hn1 hcd (base ++ [n]) recursive
        simp [loadForest, scanSpecForest, hp, hrc, ihc, ihrest]
      | false =>
        simp [loadForest, scanSpecForest, hp, hrc, ihrest]

end

mutual

/-- Every entry the scan of a directory node produces — also on a scan that
fails partway — is named by extending the base path with at least one
segment, the last of which is never "." or "..". -/
def loadDir_names : ∀ (t : FSTree) (base : Path) (recursive : Bool)
    (e : FileEntry), e ∈ (loadDir base recursive t).1 →
      ∃ s n, e.name = base ++ (s ++ [n]) ∧ ¬(n = "." ∨ n = "..")
  | FSTree.file, base, recursive, e => by simp [loadDir]
  | FSTree.deniedDir, base, recursive, e => by simp [loadDir]
  | FSTree.dir f, base, recursive, e => by
    intro hm
    exact loadForest_names f base recursive e (by simpa [loadDir] using hm)

/-- The per-listing half of the previous lemma. -/
def loadForest_names : ∀ (f : FSForest) (base : Path) (recursive : Bool)
    (e : FileEntry), e ∈ (loadForest base recursive f).1 →
      ∃ s n, e.name = base ++ (s ++ [n]) ∧ ¬(n = "." ∨ n = "..")
  | FSForest.nil, base, recursive, e => by simp [loadForest]
  | FSForest.cons n c rest, base, recursive, e => by
    by_cases hp : n = "." ∨ n = ".."
    · intro hm
      exact loadForest_names rest base recursive e
        (by simpa [loadForest, hp] using hm)
    · have hent : ∀ h : e = { name := base ++ [n], isDirectory := c.isDir },
          ∃ s m, e.name = base ++ (s ++ [m]) ∧ ¬(m = "." ∨ m = "..") := by
        intro h
        exact ⟨[], n, by simp [h], hp⟩
      have hdir : ∀ hm : e ∈ (loadDir (base ++ [n]) recursive c).1,
          ∃ s m, e.name = base ++ (s ++ [m]) ∧ ¬(m = "." ∨ m = "..") := by
        intro hm
        obtain ⟨s, m, hs, hm2⟩ := loadDir_names c (base ++ [n]) recursive e hm
        exact ⟨n :: s, m, by simp [hs], hm2⟩
      cases hrc : recursive && c.isDir with
      | true =>
        cases hd2 : (loadDir (base ++ [n]) recursive c).2 with
        | true =>
          intro hm
          simp [loadForest, hp, hrc, hd2] at hm
          rcases hm with h | h | h
          · exact hent h
          · exact hdir h
          · exact loadForest_names rest base recursive e h
        | false =>
          intro hm
          simp [loadForest, hp, hrc, hd2] at hm
          rcases hm with h | h
          · exact hent h
          · exact hdir h
      | false =>
        intro hm
        simp [loadForest, hp, hrc] at hm
        rcases hm with h | h
        · exact hent h
        · exact loadForest_names rest base recursive e h

end

/-- With the recursion flag off, the scan of a listing materializes exactly
the immediate non-pseudo children, in listing order, and always succeeds:
nothing is descended into. -/
def loadForest_nonrecursive : ∀ (f : FSForest) (base : Path),
    loadForest base false f = (immediateChildren base f, true)
  | FSForest.nil, _ => rfl
  | FSForest.cons n c rest, base => by
    have ih := loadForest_nonrecursive rest base
    by_cases hp : n = "." ∨ n = ".."
    · simp [loadForest, immediateChildren, hp, ih]
    · simp [loadForest, immediateChildren, hp, ih]

/-- Names produced by running load from a path: every entry extends that
path by at least one segment, the last never a pseudo-entry. -/
theorem loadAt_names (fs : FSTree) (base : Path) (recursive : Bool)
    (e : FileEntry) (h : e ∈ (loadAt fs base recursive).1) :
    ∃ s n, e.name = base ++ (s ++ [n]) ∧ ¬(n = "." ∨ n = "..") := by
  unfold loadAt at h
  cases hr : fs.resolve base with
  | none => rw [hr] at h; simp at h
  | some t => rw [hr] at h; exact loadDir_names t base recursive e h

/-- A small filesystem: the root holds one directory "d" containing one
file "f". -/
def fsSmall : FSTree :=
  FSTree.dir (FSForest.cons "d"
    (FSTree.dir (FSForest.cons "f" FSTree.file FSForest.nil)) FSForest.nil)

/-- A collection over the directory "d" of fsSmall, recursive. -/
def colSmall : DirectoryCollection := DirectoryCollection.mkPath fsSmall ["d"] true

/-- The state of colSmall after its first load over fsSmall. -/
def colSmallLoaded : DirectoryCollection := (colSmall.loadEntries fsSmall).1

/-- An empty root directory, used as a changed filesystem snapshot. -/
def fsEmpty : FSTree := FSTree.dir FSForest.nil

/-- C1: on a collection whose valid flag is false — default-constructed,
constructed over a path that is not a directory, or closed — entries,
getEntry, size and getInputStream all fail with InvalidState and leave the
state untouched; the outcome is the same over every filesystem, so the
failure happens before any filesystem traversal. -/
theorem C1_invalid_queries_fail (fs fs2 : FSTree) (c : DirectoryCollection)
    (nm : Path) (mp : MatchPath) (h : c.m_valid = false) :
    c.entries fs = (c, Except.error ZipiosError.invalidState) ∧
    c.getEntry fs nm mp = (c, Except.error ZipiosError.invalidState) ∧
    c.size fs = (c, Except.error ZipiosError.invalidState) ∧
    c.getInputStream fs nm mp = (c, Except.error ZipiosError.invalidState) ∧
    c.entries fs = c.entries fs2 ∧
    DirectoryCollection.mkDefault.m_valid = false ∧
    (∀ (p : Path) (r : Bool), isDirAt fs p = false →
      (DirectoryCollection.mkPath fs p r).m_valid = false) ∧
    (∀ d : DirectoryCollection, d.close.m_valid = false) := by
  have hl := loadEntries_invalid fs c h
  have hl2 := loadEntries_invalid fs2 c h
  refine ⟨?_, ?_, ?_, ?_, ?_, rfl, ?_, fun d => rfl⟩
  · simp [DirectoryCollection.entries, hl]
  · simp [DirectoryCollection.getEntry, hl]
  · simp [DirectoryCollection.size, hl]
  · simp [DirectoryCollection.getInputStream, DirectoryCollection.getEntry, hl]
  · simp [DirectoryCollection.entries, hl, hl2]
  · intro p r hp
    simp [DirectoryCollection.mkPath, hp]

/-- Witness for C1, at the default-constructed collection. -/
theorem C1_witness :
    DirectoryCollection.mkDefault.m_valid = false ∧
    DirectoryCollection.mkDefault.entries fsEmpty =
      (DirectoryCollection.mkDefault, Except.error ZipiosError.invalidState) ∧
    DirectoryCollection.mkDefault.size fsEmpty =
      (DirectoryCollection.mkDefault, Except.error ZipiosError.invalidState) := by
  have h := C1_invalid_queries_fail fsEmpty fsEmpty DirectoryCollection.mkDefault
    [] MatchPath.MATCH rfl
  exact ⟨rfl, h.1, h.2.2.1⟩

/-- C2: the lazy load is idempotent on a valid collection: the first query
leaves the loaded flag true, and from then on loadEntries — over any
filesystem at all, so with no further scan — is the identity with no
error; and two successive entries() calls return the same sequence in the
same order. -/
theorem C2_lazy_load_idempotent (fs fs2 : FSTree) (c : DirectoryCollection)
    (h : c.m_valid = true) :
    ((c.loadEntries fs).1).m_entries_loaded = true ∧
    ((c.loadEntries fs).1).loadEntries fs2 = ((c.loadEntries fs).1, none) ∧
    (∀ l, (c.entries fs).2 = Except.ok l →
      (c.entries fs).1.entries fs2 = ((c.entries fs).1, Except.ok l)) := by
  have hf := loadEntries_fields fs c
  refine ⟨hf.2.2.2 h, loadEntries_again fs fs2 c h, ?_⟩
  intro l hl
  have hagain := loadEntries_again fs fs2 c h
  rcases hp : c.loadEntries fs with ⟨d, err⟩
  rw [hp] at hagain
  cases err with
  | some e =>
    have hent : c.entries fs = (d, Except.error e) := by
      simp [DirectoryCollection.entries, hp]
    rw [hent] at hl
    simp at hl
  | none =>
    have hent : c.entries fs = (d, Except.ok d.m_entries) := by
      simp [DirectoryCollection.entries, hp]
    rw [hent] at hl ⊢
    simp at hl
    simp [DirectoryCollection.entries, hagain, hl]

/-- Witness for C2, at colSmall over fsSmall. -/
theorem C2_witness :
    colSmall.m_valid = true ∧
    colSmallLoaded.m_entries_loaded = true ∧
    colSmallLoaded.loadEntries fsSmall = (colSmallLoaded, none) ∧
    colSmallLoaded.entries fsEmpty =
      (colSmallLoaded, Except.ok colSmallLoaded.m_entries) := by
  have h := C2_lazy_load_idempotent fsSmall fsSmall colSmall rfl
  have h2 := C2_lazy_load_idempotent fsSmall fsEmpty colSmall rfl
  refine ⟨rfl, h.1, h.2.1, ?_⟩
  have := h2.2.2 colSmallLoaded.m_entries rfl
  simpa using this

/-- C3 counterexample: over a root directory "d" holding one file "f", a
successful load caches as its first entry the root entry named by the full
root path ["d"] — not the empty name — and as its second the file entry
named ["d", "f"] — the root path extended, not the root-relative ["f"]. -/
theorem C3_counterexample :
    (colSmall.loadEntries fsSmall).2 = none ∧
    colSmallLoaded.m_entries_loaded = true ∧
    colSmallLoaded.m_entries.map FileEntry.name = [["d"], ["d", "f"]] ∧
    (["d"] : Path) ≠ ([] : Path) ∧
    (["d", "f"] : Path) ≠ (["f"] : Path) := by
  exact ⟨rfl, rfl, rfl, by simp, by simp⟩

/-- C3 amended: after the first load of a fresh valid collection (cache
still empty, not yet loaded), cache[0] is the Entry Metadata for the root
directory itself, named by the collection's root path, and every other
cached entry's name is the root path extended by the entry's path relative
to the root — a full path, not a root-relative one. -/
theorem C3_cache_names (fs : FSTree) (c : DirectoryCollection)
    (h1 : c.m_valid = true) (h2 : c.m_entries_loaded = false)
    (h3 : c.m_entries = []) :
    ((c.loadEntries fs).1).m_entries.head? =
      some (DirectoryEntry fs c.m_filepath) ∧
    (DirectoryEntry fs c.m_filepath).name = c.m_filepath ∧
    ∀ e ∈ ((c.loadEntries fs).1).m_entries.tail,
      ∃ s, s ≠ [] ∧ e.name = c.m_filepath ++ s := by
  rw [loadEntries_unloaded fs c h1 h2]
  refine ⟨by simp [h3], rfl, ?_⟩
  intro e he
  simp [h3] at he
  obtain ⟨s, n, hs, _⟩ := loadAt_names fs c.m_filepath c.m_recursive e he
  exact ⟨s ++ [n], by simp, hs⟩

/-- Witness for the amended C3, at colSmall over fsSmall. -/
theorem C3_witness :
    colSmall.m_valid = true ∧
    colSmall.m_entries_loaded = false ∧
    colSmall.m_entries = [] ∧
    colSmallLoaded.m_entries.head? = some (DirectoryEntry fsSmall ["d"]) := by
  exact ⟨rfl, rfl, rfl, (C3_cache_names fsSmall colSmall rfl rfl rfl).1⟩

/-- C4: the scan of a directory listing visits the children in listing
order, skips the "." and ".." pseudo-entries, appends one Entry Metadata
per remaining child, and with the recursion flag set places the entries of
a child directory immediately after the child's own entry and before its
later siblings — the depth-first pre-order listing scanSpecDir, written
from the spec's words; with the flag off it materializes exactly the
immediate non-pseudo children (subdirectories appear as entries, with
their directory-ness recorded, but are never descended into) and the scan
always succeeds. -/
theorem C4_traversal (base : Path) (f : FSForest) :
    (∀ recursive, noDeniedForest f = true →
      loadForest base recursive f = (scanSpecForest base recursive f, true)) ∧
    loadForest base false f = (immediateChildren base f, true) ∧
    (∀ n c rest recursive, ¬(n = "." ∨ n = "..") → recursive && c.isDir = true →
      scanSpecForest base recursive (FSForest.cons n c rest) =
        ({ name := base ++ [n], isDirectory := c.isDir } : FileEntry) ::
          (scanSpecDir (base ++ [n]) recursive c ++
            scanSpecForest base recursive rest)) ∧
    (∀ n c rest recursive, (n = "." ∨ n = "..") →
      scanSpecForest base recursive (FSForest.cons n c rest) =
        scanSpecForest base recursive rest) ∧
    (∀ recursive e, e ∈ (loadForest base recursive f).1 →
      ∃ s n, e.name = base ++ (s ++ [n]) ∧ ¬(n = "." ∨ n = "..")) := by
  refine ⟨fun r hn => loadForest_eq_scanSpec f hn base r,
          loadForest_nonrecursive f base, ?_, ?_,
          fun r e hm => loadForest_names f base r e hm⟩
  · intro n c rest r hp hrc
    have hr := hrc
    simp at hr
    obtain ⟨hr1, hr2⟩ := hr
    subst hr1
    simp [scanSpecForest, hp, hr2]
  · intro n c rest r hp
    simp [scanSpecForest, hp]

/-- A listing with a plain file, a "." pseudo-entry, a subdirectory with
one file, and a trailing sibling. -/
def forestC4 : FSForest :=
  FSForest.cons "a" FSTree.file
    (FSForest.cons "." FSTree.file
      (FSForest.cons "sub"
        (FSTree.dir (FSForest.cons "x" FSTree.file FSForest.nil))
        (FSForest.cons "b" FSTree.file FSForest.nil)))

/-- Witness for C4: on forestC4 the recursive scan produces the pre-order
a, sub, sub/x, b (the pseudo-entry skipped), and the non-recursive scan
produces a, sub, b without descending into sub. -/
theorem C4_witness :
    noDeniedForest forestC4 = true ∧
    loadForest [] true forestC4 = (scanSpecForest [] true forestC4, true) ∧
    loadForest [] false forestC4 = (immediateChildren [] forestC4, true) ∧
    (loadForest [] true forestC4).1.map FileEntry.name =
      [["a"], ["sub"], ["sub", "x"], ["b"]] ∧
    (loadForest [] false forestC4).1.map FileEntry.name =
      [["a"], ["sub"], ["b"]] := by
  exact ⟨rfl, (C4_traversal [] forestC4).1 true rfl,
    (C4_traversal [] forestC4).2.1, rfl, rfl⟩

/-- C5: getEntry is a first-match scan of the cache: a returned entry is
in the cache, matches the given name under the mode, and every entry
before it in cache order does not match; when nothing matches the result
is Except.ok none — an empty result, not a failure.  MATCH compares the
entry's recorded name with the given name for exact equality; IGNORE
compares only the final path components of the two names. -/
theorem C5_getEntry_first_match (fs : FSTree) (c d : DirectoryCollection)
    (nm : Path) (mp : MatchPath) (r : Option FileEntry)
    (h : c.getEntry fs nm mp = (d, Except.ok r)) :
    (∀ e, r = some e →
      nameMatches mp e.name nm = true ∧
      ∃ l1 l2, d.m_entries = l1 ++ e :: l2 ∧
        ∀ x ∈ l1, nameMatches mp x.name nm = false) ∧
    (r = none → ∀ x ∈ d.m_entries, nameMatches mp x.name nm = false) ∧
    (∀ a b : Path, nameMatches MatchPath.MATCH a b = decide (a = b)) ∧
    (∀ a b : Path, nameMatches MatchPath.IGNORE a b =
      decide (a.getLast? = b.getLast?)) := by
  rcases hp : c.loadEntries fs with ⟨d0, err⟩
  have hde : d = d0 ∧ r = FileCollection.getEntry d0.m_entries nm mp := by
    cases err with
    | some e =>
      have : c.getEntry fs nm mp = (d0, Except.error e) := by
        simp [DirectoryCollection.getEntry, hp]
      rw [this] at h
      simp at h
    | none =>
      have : c.getEntry fs nm mp =
          (d0, Except.ok (FileCollection.getEntry d0.m_entries nm mp)) := by
        simp [DirectoryCollection.getEntry, hp]
      rw [this] at h
      have h1 := congrArg Prod.fst h
      have h2 := congrArg Prod.snd h
      simp at h1 h2
      exact ⟨h1.symm, h2.symm⟩
  obtain ⟨rfl, hr⟩ := hde
  refine ⟨?_, ?_, fun a b => rfl, fun a b => rfl⟩
  · intro e he
    rw [he] at hr
    have hfind : d.m_entries.find? (fun x => nameMatches mp x.name nm) = some e :=
      hr.symm
    obtain ⟨l1, l2, hsplit, hpe, hall⟩ :=
      find_first_decomp (fun x => nameMatches mp x.name nm) d.m_entries e hfind
    exact ⟨hpe, l1, l2, hsplit, hall⟩
  · intro he x hx
    rw [he] at hr
    have hfind : d.m_entries.find? (fun x => nameMatches mp x.name nm) = none :=
      hr.symm
    have := List.find?_eq_none.mp hfind x hx
    simpa using this

/-- Witness for C5: over fsSmall, the exact name ["d","f"] is found under
MATCH, the bare basename ["f"] is found under IGNORE but not under MATCH. -/
theorem C5_witness :
    colSmall.getEntry fsSmall ["d", "f"] MatchPath.MATCH =
      (colSmallLoaded,
        Except.ok (some { name := ["d", "f"], isDirectory := false })) ∧
    nameMatches MatchPath.MATCH ["d", "f"] ["d", "f"] = true ∧
    colSmall.getEntry fsSmall ["f"] MatchPath.IGNORE =
      (colSmallLoaded,
        Except.ok (some { name := ["d", "f"], isDirectory := false })) ∧
    colSmall.getEntry fsSmall ["f"] MatchPath.MATCH =
      (colSmallLoaded, Except.ok none) := by
  have h := C5_getEntry_first_match fsSmall colSmall colSmallLoaded
    ["d", "f"] MatchPath.MATCH
    (some { name := ["d", "f"], isDirectory := false }) rfl
  exact ⟨rfl, (h.1 _ rfl).1, rfl, rfl⟩

/-- C6: when the lookup part succeeded (the collection is valid), the
stream result is empty — Except.ok none, not a failure — exactly when no
entry matched the name under the mode or the matched entry denotes a
directory; otherwise it is a handle on the matched entry's recorded
filesystem path, opened in binary read mode. -/
theorem C6_getInputStream_empty_iff (fs : FSTree) (c d : DirectoryCollection)
    (nm : Path) (mp : MatchPath) (r : Option FileEntry)
    (h : c.getEntry fs nm mp = (d, Except.ok r)) :
    ((c.getInputStream fs nm mp).2 = Except.ok none ↔
      r = none ∨ ∃ e, r = some e ∧ e.isDirectory = true) ∧
    (∀ e, r = some e → e.isDirectory = false →
      c.getInputStream fs nm mp =
        (d, Except.ok (some { path := e.name, binaryMode := true }))) := by
  cases r with
  | none =>
    have hs : c.getInputStream fs nm mp = (d, Except.ok none) := by
      simp [DirectoryCollection.getInputStream, h]
    simp [hs]
  | some e =>
    cases he : e.isDirectory with
    | true =>
      have hs : c.getInputStream fs nm mp = (d, Except.ok none) := by
        simp [DirectoryCollection.getInputStream, h, he]
      simp [hs, he]
    | false =>
      have hs : c.getInputStream fs nm mp =
          (d, Except.ok (some { path := e.name, binaryMode := true })) := by
        simp [DirectoryCollection.getInputStream, h, he]
      simp [hs, he]

/-- Witness for C6: over fsSmall, opening the directory entry ["d"] gives
the empty result, and opening the file entry ["d","f"] gives a binary-mode
stream on that path. -/
theorem C6_witness :
    colSmall.getInputStream fsSmall ["d"] MatchPath.MATCH =
      (colSmallLoaded, Except.ok none) ∧
    colSmall.getInputStream fsSmall ["d", "f"] MatchPath.MATCH =
      (colSmallLoaded,
        Except.ok (some { path := ["d", "f"], binaryMode := true })) := by
  have h2 := C6_getInputStream_empty_iff fsSmall colSmall colSmallLoaded
    ["d", "f"] MatchPath.MATCH
    (some { name := ["d", "f"], isDirectory := false }) rfl
  exact ⟨rfl, h2.2 _ rfl rfl⟩

/-- C7: close unconditionally invalidates the collection, resets the
loaded flag, clears the cache, and resets the root path to the empty
sentinel; afterwards every query fails with InvalidState, and neither a
query nor a second close ever makes the collection valid again. -/
theorem C7_close (fs : FSTree) (c : DirectoryCollection) (nm : Path)
    (mp : MatchPath) :
    c.close.m_valid = false ∧
    c.close.m_entries_loaded = false ∧
    c.close.m_entries = [] ∧
    c.close.m_filepath = [] ∧
    c.close.entries fs = (c.close, Except.error ZipiosError.invalidState) ∧
    c.close.getEntry fs nm mp = (c.close, Except.error ZipiosError.invalidState) ∧
    c.close.size fs = (c.close, Except.error ZipiosError.invalidState) ∧
    c.close.getInputStream fs nm mp =
      (c.close, Except.error ZipiosError.invalidState) ∧
    (c.close.entries fs).1.m_valid = false ∧
    c.close.close.m_valid = false := by
  have h : c.close.m_valid = false := rfl
  have hl := loadEntries_invalid fs c.close h
  refine ⟨rfl, rfl, rfl, rfl, ?_, ?_, ?_, ?_, ?_, rfl⟩
  · simp [DirectoryCollection.entries, hl]
  · simp [DirectoryCollection.getEntry, hl]
  · simp [DirectoryCollection.size, hl]
  · simp [DirectoryCollection.getInputStream, DirectoryCollection.getEntry, hl]
  · simp [DirectoryCollection.entries, hl, h]

/-- C8: clone reproduces the collection's whole current state — validity,
loaded flag, cached entries, root path and recursion flag.  The C++ copy
constructor copies the entries vector, so in this state-passing embedding
the two values share nothing: closing the original produces a distinct
invalid state while the clone still answers entries() from its own cache,
and closing the clone leaves the original's validity untouched. -/
theorem C8_clone_independent (fs : FSTree) (c : DirectoryCollection)
    (h1 : c.m_valid = true) (h2 : c.m_entries_loaded = true) :
    c.clone = c ∧
    c.clone.m_valid = true ∧
    c.clone.m_entries_loaded = true ∧
    c.clone.m_entries = c.m_entries ∧
    c.clone.m_filepath = c.m_filepath ∧
    c.clone.m_recursive = c.m_recursive ∧
    c.close.m_valid = false ∧
    c.clone.entries fs = (c.clone, Except.ok c.m_entries) ∧
    c.clone.close.m_valid = false ∧
    c.m_valid = true := by
  have hl := loadEntries_loaded fs c h1 h2
  refine ⟨rfl, h1, h2, rfl, rfl, rfl, rfl, ?_, rfl, h1⟩
  simp [DirectoryCollection.clone, DirectoryCollection.entries, hl]

/-- Witness for C8, at the loaded colSmall. -/
theorem C8_witness :
    colSmallLoaded.m_valid = true ∧
    colSmallLoaded.m_entries_loaded = true ∧
    colSmallLoaded.clone.entries fsSmall =
      (colSmallLoaded.clone, Except.ok colSmallLoaded.m_entries) ∧
    colSmallLoaded.close.m_valid = false := by
  have h := C8_clone_independent fsSmall colSmallLoaded rfl rfl
  exact ⟨rfl, rfl, h.2.2.2.2.2.2.2.1, h.2.2.2.2.2.2.1⟩

/-- C9: getInputStream performs no check that the underlying file opened:
whenever the lookup yields a non-directory entry, the result is a non-null
stream handle on that entry's recorded path, whatever the filesystem holds
there — in particular, a collection loaded earlier hands out a stream for
the cached entry ["d","f"] even over a filesystem snapshot on which that
path can no longer be opened for reading (a failed-state handle, not an
empty result). -/
theorem C9_no_open_check (fs : FSTree) (c d : DirectoryCollection)
    (nm : Path) (mp : MatchPath) (e : FileEntry)
    (h : c.getEntry fs nm mp = (d, Except.ok (some e)))
    (hd : e.isDirectory = false) :
    c.getInputStream fs nm mp =
      (d, Except.ok (some { path := e.name, binaryMode := true })) ∧
    (colSmallLoaded.getInputStream fsEmpty ["d", "f"] MatchPath.MATCH).2 =
      Except.ok (some { path := ["d", "f"], binaryMode := true }) ∧
    canOpenForReading fsEmpty ["d", "f"] = false := by
  refine ⟨?_, rfl, rfl⟩
  simp [DirectoryCollection.getInputStream, h, hd]

/-- Witness for C9: the already-loaded colSmall queried over the empty
filesystem snapshot, where ["d","f"] no longer exists. -/
theorem C9_witness :
    colSmallLoaded.getInputStream fsEmpty ["d", "f"] MatchPath.MATCH =
      (colSmallLoaded,
        Except.ok (some { path := ["d", "f"], binaryMode := true })) ∧
    canOpenForReading fsEmpty ["d", "f"] = false := by
  have h := C9_no_open_check fsEmpty colSmallLoaded colSmallLoaded
    ["d", "f"] MatchPath.MATCH
    { name := ["d", "f"], isDirectory := false } rfl rfl
  exact ⟨h.1, h.2.2⟩

/-- A root whose listing holds a file "a", an unreadable subdirectory "d",
then a file "z": a recursive scan fails after caching "a" and "d". -/
def fsC10 : FSTree :=
  FSTree.dir (FSForest.cons "a" FSTree.file
    (FSForest.cons "d" FSTree.deniedDir
      (FSForest.cons "z" FSTree.file FSForest.nil)))

/-- A recursive collection over the root of fsC10. -/
def colC10 : DirectoryCollection := DirectoryCollection.mkPath fsC10 [] true

/-- The state of colC10 after its failing first load. -/
def colC10Loaded : DirectoryCollection := (colC10.loadEntries fsC10).1

/-- C10: loadEntries marks the collection loaded before the traversal
runs, so when the scan raises partway the collection stays valid, is
marked loaded, keeps whatever partial cache was pushed (root entry first),
and never re-attempts the scan: any later loadEntries — over any
filesystem — is the identity with no error, and entries() serves the
partial cache. -/
theorem C10_partial_load_not_atomic (fs fs2 : FSTree)
    (c d : DirectoryCollection)
    (h1 : c.m_valid = true) (h2 : c.m_entries_loaded = false)
    (h3 : c.m_entries = [])
    (h : c.loadEntries fs = (d, some ZipiosError.ioError)) :
    d.m_entries_loaded = true ∧
    d.m_valid = true ∧
    d.m_entries.head? = some (DirectoryEntry fs c.m_filepath) ∧
    d.loadEntries fs2 = (d, none) ∧
    d.entries fs2 = (d, Except.ok d.m_entries) := by
  have hu := loadEntries_unloaded fs c h1 h2
  have hdd : d = { c with
      m_entries_loaded := true
      m_entries := (c.m_entries ++ [DirectoryEntry fs c.m_filepath]) ++
        (loadAt fs c.m_filepath c.m_recursive).1 } := by
    have := h.symm.trans hu
    exact congrArg Prod.fst this
  have hld : d.m_entries_loaded = true := by rw [hdd]
  have hv : d.m_valid = true := by rw [hdd]; exact h1
  have hag := loadEntries_loaded fs2 d hv hld
  refine ⟨hld, hv, ?_, hag, ?_⟩
  · rw [hdd]
    simp [h3]
  · simp [DirectoryCollection.entries, hag]

/-- Witness for C10: over fsC10 the scan fails on the unreadable "d", the
collection stays valid and loaded, the cache holds the root, "a" and "d"
but never "z", and later queries serve exactly that partial cache. -/
theorem C10_witness :
    colC10.loadEntries fsC10 = (colC10Loaded, some ZipiosError.ioError) ∧
    colC10Loaded.m_entries_loaded = true ∧
    colC10Loaded.m_valid = true ∧
    colC10Loaded.m_entries.map FileEntry.name = [[], ["a"], ["d"]] ∧
    colC10Loaded.loadEntries fsC10 = (colC10Loaded, none) ∧
    colC10Loaded.entries fsC10 =
      (colC10Loaded, Except.ok colC10Loaded.m_entries) := by
  have h := C10_partial_load_not_atomic fsC10 fsC10 colC10 colC10Loaded
    rfl rfl rfl rfl
  exact ⟨rfl, h.1, h.2.1, rfl, h.2.2.2.1, h.2.2.2.2⟩

end Zipios
